import Mathlib

/-!
Verification of the `pm-link-auto` link-reconciliation tool.

The development shallowly embeds the program's core logic:

* string helpers mirroring the JavaScript operations used by the source
  (`String.prototype.split`, `trim`, prefix tests);
* a POSIX model of `path.resolve` (segment normalisation of `.` and `..`);
* `parseNpmLinkOutput` / `getNpmLinkList` / `getGlobalLinkedPackages`
  (the global registry adapter from `getNpmLinkList.ts` and `linker.ts`);
* `runLinker` (the reconciliation driver from `linker.ts`), with its external
  collaborators (filesystem manifest reads, the directory globber, the
  confirmation prompts, the command runner) supplied as oracles in an
  environment record, and the commands it would execute recorded as an
  explicit event trace;
* `updateConfigFile` (the format-preserving config patcher from `config.ts`),
  over a concrete-syntax document model in which every node carries its
  original source text, with the pretty-printer used by the underlying
  `recast` library for nodes it must re-print supplied as a parameter.
-/

/-! ### Character and string helpers (JavaScript string operations) -/

/-- Splits a character list at every occurrence of the separator character,
accumulating the current piece in reverse.  Models
`String.prototype.split(sep)` for a single-character separator. -/
def splitCharAux (sep : Char) : List Char → List Char → List String
  | [], acc => [String.mk acc.reverse]
  | c :: cs, acc =>
    if c = sep then String.mk acc.reverse :: splitCharAux sep cs []
    else splitCharAux sep cs (c :: acc)

/-- JavaScript `s.split(sep)` for a one-character separator `sep`. -/
def splitChar (sep : Char) (s : String) : List String :=
  splitCharAux sep s.data []

/-- Characters treated as whitespace by the source's `trim()` and `\s`
regular-expression class (space, tab, newline, carriage return). -/
def isSpaceChar (c : Char) : Bool :=
  c = ' ' || c = '\t' || c = '\n' || c = '\r'

/-- Drops leading whitespace characters. -/
def dropLeadingSpaces : List Char → List Char
  | [] => []
  | c :: cs => if isSpaceChar c then dropLeadingSpaces cs else c :: cs

/-- JavaScript `s.trim()`: removes whitespace from both ends. -/
def trimStr (s : String) : String :=
  String.mk ((dropLeadingSpaces (dropLeadingSpaces s.data).reverse).reverse)

/-- Tests whether a string starts with the given character. -/
def startsWithChar (s : String) (c : Char) : Bool :=
  match s.data with
  | [] => false
  | c0 :: _ => c0 = c

/-- First element of a string list, or the default (JavaScript `xs[0]` on the
always-nonempty result of `split`). -/
def headOr (xs : List String) (d : String) : String :=
  match xs with
  | [] => d
  | x :: _ => x

/-- Tests whether the first list starts with the second. -/
def charsStartWith : List Char → List Char → Bool
  | _, [] => true
  | [], _ :: _ => false
  | x :: xs, p :: ps => x == p && charsStartWith xs ps

/-- Tests whether string `s` starts with string `p`. -/
def strStartsWith (s p : String) : Bool :=
  charsStartWith s.data p.data

/-! ### POSIX path resolution (`node:path`'s `path.resolve`) -/

/-- Folds path segments resolving `.` and `..`: empty segments and `.` are
dropped, `..` pops the last retained segment (a no-op at the root), any other
segment is pushed.  This is the normalisation `path.posix.resolve` applies. -/
def normSegs (segs : List String) : List String :=
  segs.foldl
    (fun st seg =>
      if seg = "" then st
      else if seg = "." then st
      else if seg = ".." then st.dropLast
      else st ++ [seg])
    []

/-- Model of Node's `path.resolve(cwd, p)` for POSIX paths: if `p` is
absolute it is normalised on its own, otherwise it is joined onto `cwd`
(assumed absolute) and the join is normalised.  `path.resolve(p)` with a
single argument is `pathResolve cwd p` with `cwd` the process working
directory. -/
def pathResolve (cwd p : String) : String :=
  let full := if startsWithChar p '/' then p else cwd ++ ("/") ++ p
  ("/") ++ String.intercalate ("/") (normSegs (splitChar '/' full))

/-! ### Assoc-list maps (JavaScript `Map` / plain-object string maps) -/

/-- Looks a key up in an insertion-ordered association list. -/
def lookupStr : List (String × String) → String → Option String
  | [], _ => none
  | kv :: rest, k => if kv.1 = k then some kv.2 else lookupStr rest k

/-- Sets a key, updating it in place when present and appending otherwise —
the JavaScript `map.set(k, v)` / `obj[k] = v` semantics, which preserve the
first-insertion position of an existing key. -/
def insertUpdate (k v : String) : List (String × String) → List (String × String)
  | [] => [(k, v)]
  | kv :: rest => if kv.1 = k then (k, v) :: rest else kv :: insertUpdate k v rest

/-- Removes every binding of a key (`map.delete(k)`). -/
def removeKey (k : String) : List (String × String) → List (String × String)
  | [] => []
  | kv :: rest => if kv.1 = k then removeKey k rest else kv :: removeKey k rest

theorem lookupStr_insertUpdate_self (k v : String) (m : List (String × String)) :
    lookupStr (insertUpdate k v m) k = some v := by
  induction m with
  | nil => simp [insertUpdate, lookupStr]
  | cons kv rest ih =>
    by_cases h : kv.1 = k
    · simp [insertUpdate, lookupStr, h]
    · simp [insertUpdate, lookupStr, h, ih]

theorem lookupStr_insertUpdate_ne (k v k' : String) (m : List (String × String))
    (h : k ≠ k') : lookupStr (insertUpdate k v m) k' = lookupStr m k' := by
  induction m with
  | nil => simp [insertUpdate, lookupStr, h]
  | cons kv rest ih =>
    by_cases hk : kv.1 = k
    · simp [insertUpdate, lookupStr, hk, h]
    · simp [insertUpdate, lookupStr, hk, ih]

theorem lookupStr_removeKey_ne (k k' : String) (m : List (String × String))
    (h : k ≠ k') : lookupStr (removeKey k m) k' = lookupStr m k' := by
  induction m with
  | nil => simp [removeKey]
  | cons kv rest ih =>
    by_cases hk : kv.1 = k
    · simpa [removeKey, lookupStr, hk, h] using ih
    · simp [removeKey, lookupStr, hk, ih]

/-! ### Data model (`types.ts`) -/

/-- A declared entry of the configuration (`PackageEntry` in `types.ts`):
a package name with an optional absolute-or-relative path. -/
structure PackageEntry where
  name : String
  path : Option String
deriving DecidableEq

/-- An entry whose path has been validated (`ValidatedPackageEntry` in
`types.ts`): the path is present, absolute, and its manifest names the
entry. -/
structure ValidatedPackageEntry where
  name : String
  path : String
deriving DecidableEq

/-- The supported package managers (`PackageManager` in `types.ts`). -/
inductive PackageManager where
  | npm
  | pnpm
  | yarn
deriving DecidableEq

/-! ### Global registry adapter (`getNpmLinkList.ts` and part of `linker.ts`) -/

/-- Shape of one record of `pnpm list -g --long --json` output as consumed by
`getGlobalLinkedPackages`: the `name` and `path` fields, each possibly
absent (or empty, which JavaScript truthiness also rejects). -/
structure PnpmPkg where
  name : Option String
  path : Option String
deriving DecidableEq

/-- Result of `JSON.parse` on the pnpm listing: either an array of records or
some non-array value (in which case the source's `Array.isArray` guard skips
the whole loop). -/
inductive PnpmJson where
  | arr (pkgs : List PnpmPkg)
  | nonArray
deriving DecidableEq

/-- External collaborators of the registry adapter: the subprocess command
runner (`runCommand` in `utils.ts`, failing when the command is unavailable
or exits non-zero), the `fs.realpath` symlink resolver, and `JSON.parse` on
the pnpm listing.  Each failure is an `Except.error`. -/
structure CmdEnv where
  runCommand : String → Except String String
  realpath : String → Except String String
  parseJson : String → Except String PnpmJson

/-- Characters stripped from the front of the identifier segment by the
source's `replace` with the pattern class of tree-drawing characters and
whitespace. -/
def isTreeDrawingChar (c : Char) : Bool :=
  c = '└' || c = '├' || c = '─' || isSpaceChar c

/-- Strips the leading run of tree-drawing characters and whitespace
(the `replace(^[└├─\s]+, '')` step of `parseNpmLinkOutput`). -/
def dropTreeChars : List Char → List Char
  | [] => []
  | c :: cs => if isTreeDrawingChar c then dropTreeChars cs else c :: cs

/-- Tests whether a line contains the `->` arrow token
(`line.includes('->')`). -/
def containsArrow : List Char → Bool
  | '-' :: '>' :: _ => true
  | _ :: cs => containsArrow cs
  | [] => false

/-- Splits a character list at every occurrence of the two-character `->`
separator (JavaScript `line.split('->')`). -/
def splitArrowAux : List Char → List Char → List String
  | [], acc => [String.mk acc.reverse]
  | '-' :: '>' :: cs2, acc => String.mk acc.reverse :: splitArrowAux cs2 []
  | c :: cs, acc => splitArrowAux cs (c :: acc)

/-- JavaScript `line.split('->')`. -/
def splitArrow (s : String) : List String :=
  splitArrowAux s.data []

/-- Extracts the package name from a cleaned identifier such as
`@scope/name@1.2.3` or `name@1.2.3` (step 4 of `parseNpmLinkOutput`):
scoped identifiers keep the `@scope/name` part, unscoped identifiers keep
everything before the first `@`. -/
def extractName (cleanIdentifier : String) : String :=
  if startsWithChar cleanIdentifier '@' then
    let parts := splitChar '@' cleanIdentifier
    if 2 < parts.length then ("@") ++ parts.getD 1 ("") else cleanIdentifier
  else
    headOr (splitChar '@' cleanIdentifier) ("")

/-- The text-scraping strategy (`parseNpmLinkOutput` in `getNpmLinkList.ts`):
for each listing line with a `->` arrow, cleans the identifier on the left,
extracts the package name, joins the name onto the global `node_modules`
directory and resolves that expected symlink via `fs.realpath`; resolution
failures skip the entry with a warning. -/
def parseNpmLinkOutput (env : CmdEnv) (lines : List String)
    (globalNodeModulesPath : String) : List (String × String) :=
  lines.foldl
    (fun linkedPackages line =>
      if containsArrow line.data = false then linkedPackages
      else
        let identifierPart := headOr (splitArrow line) ("")
        let cleanIdentifier := trimStr (String.mk (dropTreeChars identifierPart.data))
        if cleanIdentifier = "" then linkedPackages
        else
          let name := extractName cleanIdentifier
          if name = "" then linkedPackages
          else
            let symlinkPath := globalNodeModulesPath ++ ("/") ++ name
            match env.realpath symlinkPath with
            | .ok realPath => insertUpdate name realPath linkedPackages
            | .error _ => linkedPackages)
    []

/-- Computes the actual global `node_modules` directory for the manager kind
(`getGlobalNodeModulesPath` in `getNpmLinkList.ts`): `yarn global dir` plus
`node_modules` for yarn, `npm root -g` otherwise. -/
def getGlobalNodeModulesPath (env : CmdEnv) (pm : PackageManager) :
    Except String String :=
  match env.runCommand
      (if pm = PackageManager.yarn then ("yarn global dir") else ("npm root -g")) with
  | .error e => .error e
  | .ok globalRoot =>
    .ok (if pm = PackageManager.yarn then trimStr globalRoot ++ ("/node_modules")
         else trimStr globalRoot)

/-- Runs the npm text listing command and splits its output into lines
(`getNpmListLines` in `getNpmLinkList.ts`). -/
def getNpmListLines (env : CmdEnv) : Except String (List String) :=
  match env.runCommand ("npm list -g --depth=0 --link=true") with
  | .error e => .error e
  | .ok stdout => .ok (splitChar '\n' stdout)

/-- The text-tree registry listing pipeline (`getNpmLinkList` in
`getNpmLinkList.ts`): global modules directory, listing lines, then
per-line parsing and symlink resolution. -/
def getNpmLinkList (env : CmdEnv) (pm : PackageManager) :
    Except String (List (String × String)) :=
  match getGlobalNodeModulesPath env pm with
  | .error e => .error e
  | .ok globalNodeModulesPath =>
    match getNpmListLines env with
    | .error e => .error e
    | .ok lines => .ok (parseNpmLinkOutput env lines globalNodeModulesPath)

/-- Body of `getGlobalLinkedPackages` in `linker.ts` before its `catch`:
the pnpm structured listing (empty output short-circuits, non-array JSON
yields no entries, records need truthy `name` and `path`), or the npm/yarn
text-scraping strategy. -/
def getGlobalLinkedPackagesBody (env : CmdEnv) (pm : PackageManager) :
    Except String (List (String × String)) :=
  match pm with
  | .pnpm =>
    match env.runCommand ("pnpm list -g --depth=0 --long --json") with
    | .error e => .error e
    | .ok stdout =>
      if trimStr stdout = "" then .ok []
      else
        match env.parseJson stdout with
        | .error e => .error e
        | .ok (.arr pkgs) =>
          .ok (pkgs.foldl
            (fun linkedPackages pkg =>
              match pkg.name, pkg.path with
              | some n, some p =>
                if n = "" then linkedPackages
                else if p = "" then linkedPackages
                else insertUpdate n p linkedPackages
              | _, _ => linkedPackages)
            [])
        | .ok .nonArray => .ok []
  | .npm => getNpmLinkList env pm
  | .yarn => getNpmLinkList env pm

/-- `getGlobalLinkedPackages` in `linker.ts`: the listing body wrapped in the
`try`/`catch` that degrades every failure to an empty map with a warning. -/
def getGlobalLinkedPackages (env : CmdEnv) (pm : PackageManager) :
    List (String × String) :=
  match getGlobalLinkedPackagesBody env pm with
  | .ok linkedPackages => linkedPackages
  | .error _ => []

/-! ### Reconciliation driver (`runLinker` in `linker.ts`)

The driver's external collaborators become an environment of oracles, and
every external command the driver would issue becomes an event of an explicit
trace, so that the driver itself is a pure function from the environment and
the declared entries to a trace and an outcome. -/

/-- External state and collaborator answers for one `runLinker` invocation:
the process working directory, the configuration file's directory
(`path.dirname(configPath)`), the filesystem's manifest reader
(`getPackageNameFromPath` in `utils.ts`, `none` for a missing, unreadable or
nameless manifest), the directories of the `package.json` files the globber
returns under the search root (vendor `node_modules` subtrees excluded), in
its deterministic traversal order, the two confirmation-prompt answers, and
the global link map produced by `getGlobalLinkedPackages` once per run. -/
structure LinkerEnv where
  cwd : String
  configDir : String
  pkgNameAt : String → Option String
  packageJsonDirs : List String
  shouldDiscover : Bool
  shouldRelink : String → Bool
  globalLinks : List (String × String)

/-- External commands and writes issued during a run, in order. -/
inductive LinkEvent where
  | configPatch (name path : String)
  | globalList
  | globalLink (cwd : String)
  | globalUnlink (name : String)
  | localLink (names : List String)
deriving DecidableEq

/-- How a run ends: nothing configured, early exit after auto-discovery,
fatal `process.exit(1)` on incomplete discovery, early exit with no valid
entries, or a completed reconciliation. -/
inductive RunOutcome where
  | nothingToDo
  | discoveryExit
  | discoveryFatal (missing : List String)
  | noValidExit
  | completed
deriving DecidableEq

/-- The per-entry decision of the reconciliation loop (`runLinker` step 3). -/
inductive LinkAction where
  | linkFresh
  | alreadyCorrect
  | conflict (existingPath intendedPath : String)
deriving DecidableEq

/-- Tests whether an action is a conflict. -/
def LinkAction.isConflict : LinkAction → Bool
  | .conflict _ _ => true
  | _ => false

/-- Validation of one declared entry (`runLinker` step 1): the entry needs a
path, the path is resolved against the configuration file's directory, and
the manifest found there must declare a truthy name equal to the entry's
name. -/
def validateEntry (env : LinkerEnv) (entry : PackageEntry) :
    Option ValidatedPackageEntry :=
  match entry.path with
  | none => none
  | some p =>
    let absolutePath := pathResolve env.configDir p
    match env.pkgNameAt absolutePath with
    | none => none
    | some foundPackageName =>
      if foundPackageName ≠ "" ∧ foundPackageName = entry.name then
        some ⟨entry.name, absolutePath⟩
      else none

/-- Partition of the declared entries into valid and invalid ones, keeping
the declared order on both sides (`runLinker` step 1). -/
def partitionEntries (env : LinkerEnv) :
    List PackageEntry → List ValidatedPackageEntry × List PackageEntry
  | [] => ([], [])
  | entry :: rest =>
    let vi := partitionEntries env rest
    match validateEntry env entry with
    | some ve => (ve :: vi.1, vi.2)
    | none => (vi.1, entry :: vi.2)

/-- The name→directory map built by `findPackagesInSearchRoot`: for each
manifest directory in traversal order, a truthy manifest name that is one of
the requested names is written into the map, a later directory with the same
name overwriting an earlier one. -/
def buildNameToPathMap (env : LinkerEnv) (packageNames : List String) :
    List (String × String) :=
  env.packageJsonDirs.foldl
    (fun nameToPathMap dir =>
      match env.pkgNameAt dir with
      | some foundName =>
        if foundName ≠ "" ∧ foundName ∈ packageNames then
          insertUpdate foundName dir nameToPathMap
        else nameToPathMap
      | none => nameToPathMap)
    []

/-- The requested names missing from the built map
(`packageNames.filter(x => !foundNames.has(x))`). -/
def missingNames (env : LinkerEnv) (packageNames : List String) : List String :=
  packageNames.filter
    (fun n => (lookupStr (buildNameToPathMap env packageNames) n).isNone)

/-- `findPackagesInSearchRoot` in `linker.ts`: builds the name→directory map
and fails the whole process (`process.exit(1)`, modelled as `Except.error`
carrying the reported names) when any requested name is missing. -/
def findPackagesInSearchRoot (env : LinkerEnv) (packageNames : List String) :
    Except (List String) (List (String × String)) :=
  if (missingNames env packageNames).isEmpty then
    .ok (buildNameToPathMap env packageNames)
  else .error (missingNames env packageNames)

/-- The decision of `runLinker` step 3 for one resolved entry: no existing
global registration links fresh; an existing registration whose
`path.resolve`d form equals the `path.resolve`d intended path is already
correct; any other registration is a conflict. -/
def computeAction (globallyLinked : List (String × String)) (cwd : String)
    (entry : ValidatedPackageEntry) : LinkAction :=
  match lookupStr globallyLinked entry.name with
  | none => .linkFresh
  | some existingPath =>
    if pathResolve cwd existingPath = pathResolve cwd entry.path then
      .alreadyCorrect
    else .conflict existingPath entry.path

/-- The commands `runLinker` step 3 issues for one resolved entry: a global
link for a fresh entry, nothing for a correct one, and—for a conflict—a
global unlink followed by a global link when the user approves the relink,
nothing when the user declines. -/
def entryEvents (env : LinkerEnv) (entry : ValidatedPackageEntry) :
    List LinkEvent :=
  match computeAction env.globalLinks env.cwd entry with
  | .linkFresh => [.globalLink entry.path]
  | .alreadyCorrect => []
  | .conflict _ _ =>
    if env.shouldRelink entry.name then
      [.globalUnlink entry.name, .globalLink entry.path]
    else []

/-- Concatenation of the step-3 command lists of a list of entries, in the
declared order. -/
def entryEventsAll (env : LinkerEnv) : List ValidatedPackageEntry → List LinkEvent
  | [] => []
  | entry :: rest => entryEvents env entry ++ entryEventsAll env rest

/-- The resolved entries a completed run processes: exactly the validated
entries (the discovery branch returns before reaching step 3). -/
def resolvedEntries (env : LinkerEnv) (packages : List PackageEntry) :
    List ValidatedPackageEntry :=
  (partitionEntries env packages).1

/-- The reconciliation driver `runLinker` in `linker.ts` as a pure function
from the environment and the declared entries to the trace of issued
commands and the run's outcome.  Empty configuration returns directly;
invalid entries plus an accepted discovery prompt run discovery, patch the
config for each discovered entry and exit the run; an incomplete discovery
kills the process before any patch; otherwise the run lists the global
registry once, issues the per-entry commands of step 3 in order, and finally
links all resolved names into the local project. -/
def runLinker (env : LinkerEnv) (packages : List PackageEntry) :
    List LinkEvent × RunOutcome :=
  if packages.isEmpty then ([], .nothingToDo)
  else if ¬ (partitionEntries env packages).2.isEmpty ∧ env.shouldDiscover then
    match findPackagesInSearchRoot env ((partitionEntries env packages).2.map (·.name)) with
    | .error missing => ([], .discoveryFatal missing)
    | .ok foundPaths =>
      (foundPaths.map (fun nv => .configPatch nv.1 nv.2), .discoveryExit)
  else if (partitionEntries env packages).1.isEmpty then ([], .noValidExit)
  else
    ((.globalList : LinkEvent) ::
        (entryEventsAll env (partitionEntries env packages).1 ++
          [.localLink ((partitionEntries env packages).1.map (·.name))]),
      .completed)

/-- Tests whether an event is a registry lookup or a link/unlink command
(everything except a config patch). -/
def isLinkCmdEvent : LinkEvent → Bool
  | .configPatch _ _ => false
  | _ => true

/-- Tests whether an event is a global link or a global unlink command. -/
def isGlobalLinkOrUnlink : LinkEvent → Bool
  | .globalLink _ => true
  | .globalUnlink _ => true
  | _ => false

/-- Modelled from the spec: the effect of one issued command on the external
package manager's global link registry, which is not part of this
repository's code (spec sections 4.2, 6 and the glossary describe it as a
table from package name to the path the package is linked from).  A global
link run in directory `d` registers the manifest name found at `d` as linked
from `d`; a global unlink removes the name's registration; listing, local
linking and config patches leave the registry unchanged. -/
def applyLinkEvent (pkgNameAt : String → Option String)
    (links : List (String × String)) : LinkEvent → List (String × String)
  | .globalLink d =>
    match pkgNameAt d with
    | some n => insertUpdate n d links
    | none => links
  | .globalUnlink n => removeKey n links
  | _ => links

/-- The registry state after a run's trace has been executed, starting from
the registry snapshot the run itself saw. -/
def registryAfter (env : LinkerEnv) (trace : List LinkEvent) :
    List (String × String) :=
  trace.foldl (applyLinkEvent env.pkgNameAt) env.globalLinks

/-- The environment of a second run started right after a first one, with no
external change in between: identical except that its registry snapshot is
the registry the first run's commands left behind. -/
def secondRunEnv (env : LinkerEnv) (packages : List PackageEntry) : LinkerEnv :=
  { env with globalLinks := registryAfter env (runLinker env packages).1 }

/-! ### Config patcher (`updateConfigFile` in `config.ts`)

`updateConfigFile` parses the configuration source with `recast`, walks every
object literal, and in each object whose `name` property is a string literal
equal to the package name either replaces the `path` property's value node or
splices a new `path` property in right after `name`; `recast.print` then
re-emits the file, keeping the original source text of untouched nodes and
pretty-printing nodes it had to rebuild.

The embedding keeps the concrete syntax: a document is a sequence of chunks,
each either verbatim source text or a candidate entry object literal; an
object literal stores its brace text and its properties, and every property
stores its leading trivia, key, key/value separator and the original source
text of its value (plus the decoded value when the value is a string
literal).  Serialising a document re-concatenates exactly the original
bytes.  The `recast` printer for rebuilt nodes is passed in as a parameter
`pp`; `recastPrettyObj` below is the concrete printer model matching the
output pinned down by the repository's own tests in `test/config.test.ts`. -/

/-- One property of an object literal, with its concrete syntax: `pre` is
the source text before the key (separating comma, whitespace, comments),
`sep` the text between key and value (colon and spacing), `valText` the
value's original source text, and `valStr` its decoded value when the value
is a string literal. -/
structure FieldLit where
  pre : String
  key : String
  sep : String
  valText : String
  valStr : Option String
deriving DecidableEq

/-- An object literal with its concrete syntax: the text of the opening
brace, the properties, and the text up to and including the closing brace. -/
structure ObjLit where
  openText : String
  fields : List FieldLit
  closeText : String
deriving DecidableEq

/-- One chunk of the configuration source: verbatim text, or a candidate
entry object literal. -/
inductive ConfigChunk where
  | text (s : String)
  | objC (o : ObjLit)
deriving DecidableEq

/-- Original source text of one property. -/
def serializeField (f : FieldLit) : String :=
  f.pre ++ f.key ++ f.sep ++ f.valText

/-- Original source text of a property list. -/
def serializeFieldList : List FieldLit → String
  | [] => ""
  | f :: fs => serializeField f ++ serializeFieldList fs

/-- Original source text of an object literal. -/
def serializeObj (o : ObjLit) : String :=
  o.openText ++ serializeFieldList o.fields ++ o.closeText

/-- Original source text of one chunk. -/
def serializeChunk : ConfigChunk → String
  | .text s => s
  | .objC o => serializeObj o

/-- The source text of a whole document: byte-for-byte concatenation of its
chunks. -/
def serializeDoc : List ConfigChunk → String
  | [] => ""
  | c :: cs => serializeChunk c ++ serializeDoc cs

/-- Printing of a rebuilt string literal by `recast.print` with the
`quote: 'single'` option (the patched path values contain no quotes or
backslashes needing escapes). -/
def quoteSingle (s : String) : String :=
  ("'") ++ s ++ ("'")

/-- The predicate `updateConfigFile` uses to recognise the entry object: a
property with identifier key `name` whose value is a string literal equal to
the package name. -/
def fieldIsMatchingName (packageName : String) (f : FieldLit) : Bool :=
  decide (f.key = ("name") ∧ f.valStr = some packageName)

/-- Tests whether some property of the list is the matching `name` property. -/
def anyFieldMatchingName (packageName : String) : List FieldLit → Bool
  | [] => false
  | f :: fs => fieldIsMatchingName packageName f || anyFieldMatchingName packageName fs

/-- Tests whether an object literal is the entry object for the package. -/
def objMatches (packageName : String) (o : ObjLit) : Bool :=
  anyFieldMatchingName packageName o.fields

/-- Tests whether a property list has a `path` property. -/
def hasPathField : List FieldLit → Bool
  | [] => false
  | f :: fs => if f.key = ("path") then true else hasPathField fs

/-- Replaces the value of the first `path` property: `recast` re-prints just
the replaced value node, so only `valText` (and the decoded `valStr`)
change; the property's own trivia and every other property keep their
original text. -/
def overwritePath (newPath : String) : List FieldLit → List FieldLit
  | [] => []
  | f :: fs =>
    if f.key = ("path") then
      { f with valText := quoteSingle newPath, valStr := some newPath } :: fs
    else f :: overwritePath newPath fs

/-- The freshly built `path` property
(`b.property('init', b.identifier('path'), b.stringLiteral(relativePath))`).
Its layout is decided by the printer of the rebuilt object, not by these
trivia fields. -/
def mkPathField (newPath : String) : FieldLit :=
  ⟨"", ("path"), (": "), quoteSingle newPath, some newPath⟩

/-- Splices a new property in right after the matching `name` property
(`properties.splice(nameIndex + 1, 0, newPathProperty)` with `nameIndex` the
index of the first matching `name` property). -/
def insertPathAfterName (packageName : String) (newField : FieldLit) :
    List FieldLit → List FieldLit
  | [] => []
  | f :: fs =>
    if fieldIsMatchingName packageName f then f :: newField :: fs
    else f :: insertPathAfterName packageName newField fs

/-- New source text of one object literal after the patch: a non-matching
object keeps its original text; a matching object with a `path` property
keeps its original text except for the replaced value; a matching object
without one gets the new property spliced in after `name` and is re-printed
whole by the printer `pp` for rebuilt nodes. -/
def patchObj (packageName newPath : String) (pp : ObjLit → String)
    (o : ObjLit) : String :=
  if objMatches packageName o then
    if hasPathField o.fields then
      serializeObj { o with fields := overwritePath newPath o.fields }
    else
      pp { o with fields := insertPathAfterName packageName (mkPathField newPath) o.fields }
  else serializeObj o

/-- New source text of one chunk after the patch. -/
def patchChunk (packageName newPath : String) (pp : ObjLit → String) :
    ConfigChunk → String
  | .text s => s
  | .objC o => patchObj packageName newPath pp o

/-- New source text of the whole document after the patch. -/
def patchDocText (packageName newPath : String) (pp : ObjLit → String) :
    List ConfigChunk → String
  | [] => ""
  | c :: cs =>
    patchChunk packageName newPath pp c ++ patchDocText packageName newPath pp cs

/-- Tests whether any chunk holds a matching entry object — the visitor's
`updated` flag. -/
def anyChunkMatches (packageName : String) : List ConfigChunk → Bool
  | [] => false
  | .text _ :: cs => anyChunkMatches packageName cs
  | .objC o :: cs => objMatches packageName o || anyChunkMatches packageName cs

/-- The pure core of `updateConfigFile`: the patched source text when some
entry object matched, `none` (warn, do not write) otherwise. -/
def updateConfig (packageName newPath : String) (pp : ObjLit → String)
    (doc : List ConfigChunk) : Option String :=
  if anyChunkMatches packageName doc then
    some (patchDocText packageName newPath pp doc)
  else none

/-- Observable outcome of one `updateConfigFile` call: the file was written
with new content, or a warning that no entry matched was printed and nothing
written, or the read/parse (or anything else inside the `try`) threw and the
`catch` printed an error, writing nothing. -/
inductive UpdateResult where
  | wrote (newContent : String)
  | warnedNoEntry
  | caughtError
deriving DecidableEq

/-- `updateConfigFile` in `config.ts`: `parsed` is the outcome of reading and
parsing the file (`none` when `fs.readFile` or `recast.parse` threw).  A
parse failure is caught; a parsed document without a matching entry only
warns; otherwise the patched text is written back. -/
def updateConfigFile (packageName newPath : String) (pp : ObjLit → String)
    (parsed : Option (List ConfigChunk)) : UpdateResult :=
  match parsed with
  | none => .caughtError
  | some doc =>
    match updateConfig packageName newPath pp doc with
    | some newContent => .wrote newContent
    | none => .warnedNoEntry

/-- The configuration file's content after one `updateConfigFile` call whose
original content was `content`. -/
def fileAfter (content : String) : UpdateResult → String
  | .wrote newContent => newContent
  | .warnedNoEntry => content
  | .caughtError => content

/-- Model of the `recast` pretty-printer for a rebuilt object literal
(`recast.print` with `tabWidth: 2, quote: 'single'`), at the indentation
`indent` of the object's line: each property on its own line, two further
spaces of indentation, original value text kept for untouched values.  The
output format is pinned down by the repository's own expected contents in
`test/config.test.ts`. -/
def recastPrettyObj (indent : String) (o : ObjLit) : String :=
  ("\x7b\n") ++
    String.intercalate (",\n")
      (o.fields.map (fun f => indent ++ ("  ") ++ f.key ++ (": ") ++ f.valText)) ++
    ("\n") ++ indent ++ ("\x7d")

/-! ### Claim C9 — name extraction from registry listing identifiers -/

/-- Claim C9: for identifier strings taken from the left side of an arrow
line of the text-tree registry listing, after the tree-drawing characters
have been stripped, name extraction yields `@scope/name` for
`@scope/name@1.2.3` (scoped with version), `name` for `name@1.2.3`
(unscoped with version), and `name` for `name` (no version). -/
theorem claim_C9 :
    extractName ("@scope/name@1.2.3") = ("@scope/name") ∧
    extractName ("name@1.2.3") = ("name") ∧
    extractName ("name") = ("name") := by
  refine ⟨?_, ?_, ?_⟩ <;> rfl

/-! ### Claim C5 — path-normalisation-aware conflict detection -/

/-- Claim C5: for a resolved entry whose name appears in the global link
map, the `AlreadyCorrect`-versus-`Conflict` decision compares the existing
registry path and the intended path in `path.resolve`d (normalised
absolute) form on both sides: the decision is `AlreadyCorrect` exactly when
the two normalised paths agree.  The witness instantiates this at the
claim's concrete pair `/a/b/../b/pkg` versus `/a/b/pkg`. -/
theorem claim_C5 (globallyLinked : List (String × String)) (cwd : String)
    (entry : ValidatedPackageEntry) (existingPath : String)
    (hlook : lookupStr globallyLinked entry.name = some existingPath) :
    computeAction globallyLinked cwd entry = LinkAction.alreadyCorrect ↔
      pathResolve cwd existingPath = pathResolve cwd entry.path := by
  unfold computeAction
  rw [hlook]
  by_cases h : pathResolve cwd existingPath = pathResolve cwd entry.path
  · simp [h]
  · simp [h]

/-- Witness for claim C5: an existing link at `/a/b/../b/pkg` against an
intended path `/a/b/pkg` yields `AlreadyCorrect`, not `Conflict`. -/
theorem claim_C5_witness :
    computeAction [(("pkg"), ("/a/b/../b/pkg"))] ("/")
      ⟨("pkg"), ("/a/b/pkg")⟩ = LinkAction.alreadyCorrect :=
  (claim_C5 [(("pkg"), ("/a/b/../b/pkg"))] ("/") ⟨("pkg"), ("/a/b/pkg")⟩
    ("/a/b/../b/pkg") rfl).mpr (by decide)

/-! ### Claim C7 — registry listing failures degrade to an empty map -/

/-- Claim C7: for every package-manager kind, when the global-registry
listing fails (command unavailable or non-zero exit, modelled by every
command failing; or, for the structured pnpm listing, unparseable output),
`getGlobalLinkedPackages` does not raise: it returns the empty map, and with
an empty map the reconciliation decision for every entry is `LinkFresh`
(treated as not yet linked). -/
theorem claim_C7 (pm : PackageManager) (env envP : CmdEnv)
    (hfail : ∀ c, env.runCommand c = Except.error ("command failed"))
    (hparse : ∀ s, envP.parseJson s = Except.error ("unparseable output")) :
    getGlobalLinkedPackages env pm = [] ∧
    getGlobalLinkedPackages envP PackageManager.pnpm = [] ∧
    (∀ (cwd : String) (entry : ValidatedPackageEntry),
      computeAction [] cwd entry = LinkAction.linkFresh) := by
  refine ⟨?_, ?_, fun cwd entry => rfl⟩
  · cases pm <;>
      simp [getGlobalLinkedPackages, getGlobalLinkedPackagesBody, getNpmLinkList,
        getGlobalNodeModulesPath, getNpmListLines, hfail]
  · unfold getGlobalLinkedPackages getGlobalLinkedPackagesBody
    cases hrun : envP.runCommand ("pnpm list -g --depth=0 --long --json") with
    | error e => simp [hrun]
    | ok stdout =>
      by_cases htrim : trimStr stdout = ""
      · simp [hrun, htrim]
      · simp [hrun, htrim, hparse]

/-- Environment in which every external command, symlink resolution and JSON
parse fails. -/
def envAllFail : CmdEnv :=
  ⟨fun _ => Except.error ("command failed"),
   fun _ => Except.error ("command failed"),
   fun _ => Except.error ("unparseable output")⟩

/-- Witness for claim C7: with every listing command failing, all three
manager kinds produce the empty map, and a sample entry's decision on the
empty map is `LinkFresh`. -/
theorem claim_C7_witness :
    getGlobalLinkedPackages envAllFail PackageManager.npm = [] ∧
    getGlobalLinkedPackages envAllFail PackageManager.pnpm = [] ∧
    computeAction [] ("/") ⟨("pkg-a"), ("/x/pkg-a")⟩ = LinkAction.linkFresh := by
  have h := claim_C7 PackageManager.npm envAllFail envAllFail
    (fun c => rfl) (fun s => rfl)
  exact ⟨h.1, h.2.1, h.2.2 ("/") ⟨("pkg-a"), ("/x/pkg-a")⟩⟩

/-! ### Claim C10 — config patch failure modes leave the file unchanged -/

/-- Claim C10: when reading or parsing the configuration source fails, or
when no entry object with the given package name exists in the parsed
document, `updateConfigFile` neither throws nor writes: the file content is
left exactly unchanged, the parse failure is caught, and the no-entry case
produces only the warning outcome. -/
theorem claim_C10 (packageName newPath content : String) (pp : ObjLit → String)
    (parsed : Option (List ConfigChunk))
    (h : parsed = none ∨
      ∃ doc, parsed = some doc ∧ anyChunkMatches packageName doc = false) :
    fileAfter content (updateConfigFile packageName newPath pp parsed) = content ∧
    (parsed = none →
      updateConfigFile packageName newPath pp parsed = UpdateResult.caughtError) ∧
    (∀ doc, parsed = some doc →
      updateConfigFile packageName newPath pp parsed = UpdateResult.warnedNoEntry) := by
  rcases h with h | ⟨doc, hdoc, hmatch⟩
  · subst h
    exact ⟨rfl, fun _ => rfl, fun doc hdoc => by cases hdoc⟩
  · subst hdoc
    refine ⟨?_, ?_, ?_⟩
    · simp [updateConfigFile, updateConfig, hmatch, fileAfter]
    · intro hnone
      simp at hnone
    · intro doc' hdoc'
      injection hdoc' with h'
      subst h'
      simp [updateConfigFile, updateConfig, hmatch]

/-! ### Claim C2 — accepted auto-discovery ends the run before any linking -/

/-- Claim C2: in every run with at least one invalid entry in which the user
accepts auto-discovery, the run terminates immediately after the config has
been patched for every discovered entry: the trace contains no
global-registry lookup, no global link or unlink, and no local-project
link.  A successful discovery produces exactly the config-patch events of
the discovered map and the early discovery-exit outcome; an incomplete
discovery kills the run before any patch. -/
theorem claim_C2 (env : LinkerEnv) (packages : List PackageEntry)
    (hinv : (partitionEntries env packages).2 ≠ [])
    (hdisc : env.shouldDiscover = true) :
    (∀ ev ∈ (runLinker env packages).1, isLinkCmdEvent ev = false) ∧
    (∀ missing,
      findPackagesInSearchRoot env ((partitionEntries env packages).2.map (·.name)) =
        Except.error missing →
      runLinker env packages = ([], RunOutcome.discoveryFatal missing)) ∧
    (∀ foundPaths,
      findPackagesInSearchRoot env ((partitionEntries env packages).2.map (·.name)) =
        Except.ok foundPaths →
      runLinker env packages =
        (foundPaths.map (fun nv => LinkEvent.configPatch nv.1 nv.2),
          RunOutcome.discoveryExit)) := by
  have hne : packages ≠ [] := by
    intro h
    subst h
    exact hinv rfl
  have hempty : packages.isEmpty = false := by
    cases packages with
    | nil => exact absurd rfl hne
    | cons a l => rfl
  have h1 : (partitionEntries env packages).2.isEmpty = false := by
    cases hc : (partitionEntries env packages).2 with
    | nil => exact absurd hc hinv
    | cons a l => rfl
  have hrun : runLinker env packages =
      match findPackagesInSearchRoot env ((partitionEntries env packages).2.map (·.name)) with
      | .error missing => ([], RunOutcome.discoveryFatal missing)
      | .ok foundPaths =>
        (foundPaths.map (fun nv => LinkEvent.configPatch nv.1 nv.2),
          RunOutcome.discoveryExit) := by
    unfold runLinker
    rw [if_neg (by simp [hempty]), if_pos (by simp [h1, hdisc])]
  refine ⟨?_, ?_, ?_⟩
  · intro ev hev
    rw [hrun] at hev
    cases hfind : findPackagesInSearchRoot env ((partitionEntries env packages).2.map (·.name)) with
    | error missing =>
      rw [hfind] at hev
      simp at hev
    | ok foundPaths =>
      rw [hfind] at hev
      simp at hev
      obtain ⟨nv, w, _, hev⟩ := hev
      rw [← hev]
      rfl
  · intro missing hfind
    rw [hrun, hfind]
  · intro foundPaths hfind
    rw [hrun, hfind]

/-- Environment of the C2 witness: one declared entry without a path, a
search root containing its manifest, and an accepted discovery prompt. -/
def envW2 : LinkerEnv :=
  ⟨("/"), ("/proj"),
   (fun p => if p = ("/root0/liba") then some ("lib-a") else none),
   [("/root0/liba")], true, (fun _ => false), []⟩

/-- Declared entries of the C2 witness. -/
def packagesW2 : List PackageEntry := [⟨("lib-a"), none⟩]

/-- Witness for claim C2: the run patches the config with the discovered
path and exits; its trace holds no registry lookup and no link command. -/
theorem claim_C2_witness :
    (∀ ev ∈ (runLinker envW2 packagesW2).1, isLinkCmdEvent ev = false) ∧
    runLinker envW2 packagesW2 =
      ([LinkEvent.configPatch ("lib-a") ("/root0/liba")], RunOutcome.discoveryExit) := by
  have h := claim_C2 envW2 packagesW2 (by decide) rfl
  refine ⟨h.1, ?_⟩
  have h2 := h.2.2 [(("lib-a"), ("/root0/liba"))] rfl
  exact h2

/-! ### Claim C6 — incomplete discovery is fatal and patches nothing -/

/-- Claim C6: whenever at least one requested name is not found anywhere
under the search root, the whole run aborts with the fatal outcome (the
source's `process.exit(1)`) reporting exactly the requested names missing
from the built map, and the trace is empty: no partial name→path mapping is
used to patch the configuration file. -/
theorem claim_C6 (env : LinkerEnv) (packages : List PackageEntry)
    (hinv : (partitionEntries env packages).2 ≠ [])
    (hdisc : env.shouldDiscover = true)
    (hmiss : missingNames env ((partitionEntries env packages).2.map (·.name)) ≠ []) :
    runLinker env packages =
      ([], RunOutcome.discoveryFatal
        (missingNames env ((partitionEntries env packages).2.map (·.name)))) ∧
    missingNames env ((partitionEntries env packages).2.map (·.name)) =
      ((partitionEntries env packages).2.map (·.name)).filter
        (fun n =>
          (lookupStr
            (buildNameToPathMap env ((partitionEntries env packages).2.map (·.name)))
            n).isNone) := by
  have hmissEmpty :
      (missingNames env ((partitionEntries env packages).2.map (·.name))).isEmpty = false := by
    cases hc : missingNames env ((partitionEntries env packages).2.map (·.name)) with
    | nil => exact absurd hc hmiss
    | cons a l => rfl
  have hfind : findPackagesInSearchRoot env ((partitionEntries env packages).2.map (·.name)) =
      Except.error (missingNames env ((partitionEntries env packages).2.map (·.name))) := by
    unfold findPackagesInSearchRoot
    rw [if_neg (by simp [hmissEmpty])]
  exact ⟨(claim_C2 env packages hinv hdisc).2.1 _ hfind, rfl⟩

/-- Environment of the C6 witness: two requested names, a search root whose
only manifest declares just one of them. -/
def envW6 : LinkerEnv :=
  ⟨("/"), ("/proj"),
   (fun p => if p = ("/root0/liba") then some ("lib-a") else none),
   [("/root0/liba")], true, (fun _ => false), []⟩

/-- Declared entries of the C6 witness. -/
def packagesW6 : List PackageEntry := [⟨("lib-a"), none⟩, ⟨("lib-b"), none⟩]

/-- Witness for claim C6: with `lib-b` unfound, the run dies fatally
reporting exactly `lib-b`, and no config patch is issued. -/
theorem claim_C6_witness :
    runLinker envW6 packagesW6 = ([], RunOutcome.discoveryFatal [("lib-b")]) ∧
    missingNames envW6 ((partitionEntries envW6 packagesW6).2.map (·.name)) = [("lib-b")] := by
  have h := claim_C6 envW6 packagesW6 (by decide) rfl (by decide)
  have hm : missingNames envW6 ((partitionEntries envW6 packagesW6).2.map (·.name)) = [("lib-b")] := by decide
  exact ⟨hm ▸ h.1, hm⟩

/-! ### Claim C8 — declined conflicts skip the entry but not the run -/

/-- Claim C8: for every resolved entry in the `Conflict` state for which the
user declines the relink, no global unlink and no global link command is
issued for that entry (its step-3 command list is empty), the run still
completes with the remaining entries, and the final local-project link
command — the last event of the trace — includes that entry's name. -/
theorem claim_C8 (env : LinkerEnv) (packages : List PackageEntry)
    (entry : ValidatedPackageEntry)
    (hmem : entry ∈ resolvedEntries env packages)
    (hnodisc : (partitionEntries env packages).2 = [] ∨ env.shouldDiscover = false)
    (hconf : (computeAction env.globalLinks env.cwd entry).isConflict = true)
    (hdecl : env.shouldRelink entry.name = false) :
    entryEvents env entry = [] ∧
    (runLinker env packages).2 = RunOutcome.completed ∧
    (runLinker env packages).1.getLast? =
      some (LinkEvent.localLink ((resolvedEntries env packages).map (·.name))) ∧
    entry.name ∈ (resolvedEntries env packages).map (·.name) := by
  have hvalidne : resolvedEntries env packages ≠ [] := by
    intro h
    rw [h] at hmem
    exact absurd hmem (List.not_mem_nil entry)
  have hne : packages ≠ [] := by
    intro h
    subst h
    simp [resolvedEntries, partitionEntries] at hmem
  have hempty : packages.isEmpty = false := by
    cases packages with
    | nil => exact absurd rfl hne
    | cons a l => rfl
  have hvalidEmpty : (partitionEntries env packages).1.isEmpty = false := by
    cases hc : (partitionEntries env packages).1 with
    | nil => exact absurd hc hvalidne
    | cons a l => rfl
  have hcond : ¬(¬(partitionEntries env packages).2.isEmpty = true ∧
      env.shouldDiscover = true) := by
    rcases hnodisc with h | h
    · intro hcontra
      exact hcontra.1 (by rw [h]; rfl)
    · intro hcontra
      rw [h] at hcontra
      exact absurd hcontra.2 (by decide)
  have hrun : runLinker env packages =
      ((LinkEvent.globalList :
          LinkEvent) ::
        (entryEventsAll env (partitionEntries env packages).1 ++
          [LinkEvent.localLink ((partitionEntries env packages).1.map (·.name))]),
        RunOutcome.completed) := by
    unfold runLinker
    rw [if_neg (by simp [hempty]), if_neg hcond, if_neg (by simp [hvalidEmpty])]
  have hev : entryEvents env entry = [] := by
    unfold entryEvents
    cases hca : computeAction env.globalLinks env.cwd entry with
    | linkFresh => exact absurd hconf (by simp [hca, LinkAction.isConflict])
    | alreadyCorrect => exact absurd hconf (by simp [hca, LinkAction.isConflict])
    | conflict ex int => simp [hdecl]
  refine ⟨hev, ?_, ?_, List.mem_map_of_mem (·.name) hmem⟩
  · rw [hrun]
  · rw [hrun]
    show ((LinkEvent.globalList :: entryEventsAll env (partitionEntries env packages).1) ++
        [LinkEvent.localLink ((partitionEntries env packages).1.map (·.name))]).getLast? = _
    exact List.getLast?_concat _

/-- Environment of the C8 witness: the spec's conflict-declined scenario —
the declared path is valid, the registry reports a different link source,
and the user declines the relink. -/
def envW8 : LinkerEnv :=
  ⟨("/"), ("/proj"),
   (fun p => if p = ("/correct/pkg-b") then some ("pkg-b") else none),
   [], false, (fun _ => false), [(("pkg-b"), ("/wrong/pkg-b"))]⟩

/-- Declared entries of the C8 witness. -/
def packagesW8 : List PackageEntry := [⟨("pkg-b"), some ("/correct/pkg-b")⟩]

/-- Witness for claim C8: with `pkg-b` declared at `/correct/pkg-b` but
linked from `/wrong/pkg-b` and the relink declined, no unlink/link command
is issued for it, yet the final local-link event still names `pkg-b`. -/
theorem claim_C8_witness :
    entryEvents envW8 ⟨("pkg-b"), ("/correct/pkg-b")⟩ = [] ∧
    (runLinker envW8 packagesW8).2 = RunOutcome.completed ∧
    (runLinker envW8 packagesW8).1.getLast? =
      some (LinkEvent.localLink [("pkg-b")]) ∧
    ("pkg-b") ∈ ([("pkg-b")] : List String) := by
  have h := claim_C8 envW8 packagesW8 ⟨("pkg-b"), ("/correct/pkg-b")⟩
    (by decide) (Or.inl rfl) (by decide) rfl
  have hnames : (resolvedEntries envW8 packagesW8).map (·.name) = [("pkg-b")] := by decide
  rw [hnames] at h
  exact h

/-! ### Claim C4 — tie-break among duplicate package names -/

/-- Directories of the searched manifest list whose manifest declares
exactly the given name, in traversal order. -/
def matchingDirs (env : LinkerEnv) (n : String) : List String :=
  env.packageJsonDirs.filter (fun d => decide (env.pkgNameAt d = some n))

theorem lookup_buildFold (env : LinkerEnv) (packageNames : List String) (n : String)
    (hne : n ≠ "") (hn : n ∈ packageNames) :
    ∀ (dirs : List String) (m : List (String × String)),
    lookupStr
      (dirs.foldl
        (fun nameToPathMap dir =>
          match env.pkgNameAt dir with
          | some foundName =>
            if foundName ≠ "" ∧ foundName ∈ packageNames then
              insertUpdate foundName dir nameToPathMap
            else nameToPathMap
          | none => nameToPathMap)
        m) n =
      match (dirs.filter (fun d => decide (env.pkgNameAt d = some n))).getLast? with
      | some d => some d
      | none => lookupStr m n := by
  intro dirs
  induction dirs with
  | nil => intro m; rfl
  | cons d ds ih =>
    intro m
    rw [List.foldl_cons, ih]
    by_cases hPd : env.pkgNameAt d = some n
    · have hstep :
          (match env.pkgNameAt d with
            | some foundName =>
              if foundName ≠ "" ∧ foundName ∈ packageNames then
                insertUpdate foundName d m
              else m
            | none => m) = insertUpdate n d m := by
        rw [hPd]
        simp [hne, hn]
      rw [hstep]
      rw [List.filter_cons]
      simp only [hPd]
      cases hc : ds.filter (fun d => decide (env.pkgNameAt d = some n)) with
      | nil =>
        simp [lookupStr_insertUpdate_self]
      | cons x xs =>
        cases hg : (x :: xs).getLast? with
        | none => simp at hg
        | some y => simp [List.getLast?_cons_cons, hg]
    · have hstep :
          lookupStr
            (match env.pkgNameAt d with
              | some foundName =>
                if foundName ≠ "" ∧ foundName ∈ packageNames then
                  insertUpdate foundName d m
                else m
              | none => m) n = lookupStr m n := by
        cases hfn : env.pkgNameAt d with
        | none => rfl
        | some foundName =>
          show lookupStr
            (if foundName ≠ "" ∧ foundName ∈ packageNames then
              insertUpdate foundName d m
            else m) n = lookupStr m n
          by_cases hcond : foundName ≠ "" ∧ foundName ∈ packageNames
          · have hfnn : foundName ≠ n := by
              intro hcontra
              rw [hcontra] at hfn
              exact hPd hfn
            rw [if_pos hcond]
            exact lookupStr_insertUpdate_ne foundName d n m hfnn
          · rw [if_neg hcond]
      rw [hstep]
      rw [List.filter_cons]
      simp [hPd]

/-- Claim C4 (amended): for a searched name actually requested (and truthy),
the mapping `findPackagesInSearchRoot` builds maps the name to the **last**
matching directory encountered in the deterministic traversal order of the
manifest-file list — a later duplicate overwrites an earlier one — not the
first as claimed. -/
theorem claim_C4 (env : LinkerEnv) (packageNames : List String) (n : String)
    (hne : n ≠ "") (hn : n ∈ packageNames) :
    lookupStr (buildNameToPathMap env packageNames) n = (matchingDirs env n).getLast? := by
  have h := lookup_buildFold env packageNames n hne hn env.packageJsonDirs []
  rw [buildNameToPathMap, matchingDirs]
  rw [h]
  cases hc : (env.packageJsonDirs.filter
      (fun d => decide (env.pkgNameAt d = some n))).getLast? with
  | none => rfl
  | some d => rfl

/-- Environment of the C4 counterexample: two directories, in this traversal
order, both declaring the package name `dup`. -/
def envC4 : LinkerEnv :=
  ⟨("/"), ("/"),
   (fun p =>
     if p = ("/r/a") then some ("dup")
     else if p = ("/r/b") then some ("dup") else none),
   [("/r/a"), ("/r/b")], true, (fun _ => false), []⟩

/-- Counterexample to claim C4 as stated: with two directories `/r/a` and
`/r/b` declaring the same requested name `dup`, the matching directories in
traversal order are `[/r/a, /r/b]`, whose first element is `/r/a`, yet
discovery returns the mapping `dup ↦ /r/b` — the last match, not the
first. -/
theorem claim_C4_counterexample :
    findPackagesInSearchRoot envC4 [("dup")] = Except.ok [(("dup"), ("/r/b"))] ∧
    matchingDirs envC4 ("dup") = [("/r/a"), ("/r/b")] ∧
    ("/r/b") ≠ ("/r/a") := by
  refine ⟨rfl, rfl, by decide⟩

/-- Witness for claim C4 (amended), at the duplicate-name environment: the
built mapping for `dup` is the last matching directory. -/
theorem claim_C4_witness :
    lookupStr (buildNameToPathMap envC4 [("dup")]) ("dup") =
      (matchingDirs envC4 ("dup")).getLast? :=
  claim_C4 envC4 [("dup")] ("dup") (by decide) (by decide)

/-! ### Claim C1 — frame effect of the config patch -/

theorem serializeFieldList_append (l1 l2 : List FieldLit) :
    serializeFieldList (l1 ++ l2) = serializeFieldList l1 ++ serializeFieldList l2 := by
  induction l1 with
  | nil => simp [serializeFieldList]
  | cons f fs ih => simp [serializeFieldList, ih, String.append_assoc]

theorem serializeDoc_append (l1 l2 : List ConfigChunk) :
    serializeDoc (l1 ++ l2) = serializeDoc l1 ++ serializeDoc l2 := by
  induction l1 with
  | nil => simp [serializeDoc]
  | cons c cs ih => simp [serializeDoc, ih, String.append_assoc]

theorem patchDocText_append (packageName newPath : String) (pp : ObjLit → String)
    (l1 l2 : List ConfigChunk) :
    patchDocText packageName newPath pp (l1 ++ l2) =
      patchDocText packageName newPath pp l1 ++ patchDocText packageName newPath pp l2 := by
  induction l1 with
  | nil => simp [patchDocText]
  | cons c cs ih => simp [patchDocText, ih, String.append_assoc]

theorem patchChunk_not_matching (packageName newPath : String) (pp : ObjLit → String)
    (c : ConfigChunk)
    (h : anyChunkMatches packageName [c] = false) :
    patchChunk packageName newPath pp c = serializeChunk c := by
  cases c with
  | text s => rfl
  | objC o =>
    have ho : objMatches packageName o = false := by
      have h' := h
      simp [anyChunkMatches] at h'
      exact h'
    simp [patchChunk, patchObj, ho, serializeChunk]

theorem anyChunkMatches_cons_false (packageName : String) (c : ConfigChunk)
    (cs : List ConfigChunk) (h : anyChunkMatches packageName (c :: cs) = false) :
    anyChunkMatches packageName [c] = false ∧ anyChunkMatches packageName cs = false := by
  cases c with
  | text s => exact ⟨rfl, h⟩
  | objC o =>
    have h' := h
    simp [anyChunkMatches] at h'
    exact ⟨by simp [anyChunkMatches, h'.1], h'.2⟩

theorem patchDocText_of_no_match (packageName newPath : String) (pp : ObjLit → String)
    (cs : List ConfigChunk) (h : anyChunkMatches packageName cs = false) :
    patchDocText packageName newPath pp cs = serializeDoc cs := by
  induction cs with
  | nil => rfl
  | cons c rest ih =>
    obtain ⟨hc, hrest⟩ := anyChunkMatches_cons_false packageName c rest h
    show patchChunk packageName newPath pp c ++ patchDocText packageName newPath pp rest =
      serializeChunk c ++ serializeDoc rest
    rw [patchChunk_not_matching packageName newPath pp c hc, ih hrest]

theorem hasPathField_append_path (fs1 : List FieldLit) (pf : FieldLit)
    (fs2 : List FieldLit) (hkey : pf.key = ("path")) :
    hasPathField (fs1 ++ pf :: fs2) = true := by
  induction fs1 with
  | nil => simp [hasPathField, hkey]
  | cons f fs ih =>
    show (if f.key = ("path") then true else hasPathField (fs ++ pf :: fs2)) = true
    by_cases hf : f.key = ("path")
    · rw [if_pos hf]
    · rw [if_neg hf, ih]

theorem overwritePath_split (newPath : String) (fs1 : List FieldLit) (pf : FieldLit)
    (fs2 : List FieldLit) (h1 : hasPathField fs1 = false) (hkey : pf.key = ("path")) :
    overwritePath newPath (fs1 ++ pf :: fs2) =
      fs1 ++ { pf with valText := quoteSingle newPath, valStr := some newPath } :: fs2 := by
  induction fs1 with
  | nil => simp [overwritePath, hkey]
  | cons f fs ih =>
    have hf : ¬ f.key = ("path") := by
      intro hcontra
      have : hasPathField (f :: fs) = true := by simp [hasPathField, hcontra]
      rw [this] at h1
      cases h1
    have hfs : hasPathField fs = false := by
      have h1' := h1
      simp [hasPathField, hf] at h1'
      exact h1'
    show (if f.key = ("path") then _ :: (fs ++ pf :: fs2)
        else f :: overwritePath newPath (fs ++ pf :: fs2)) = _
    rw [if_neg hf, ih hfs]
    rfl

/-- Claim C1 (amended): patching package `packageName`'s path in a document
whose only matching entry object is `o` behaves as follows, with `pp` the
printer `recast` uses for rebuilt nodes.  When the entry already has a
`path` property (first conjunct, for the decomposition of the entry's
property list at its first `path` property), only that property's value text
changes: original and patched file are the concatenations `A ++ old ++ B`
and `A ++ new ++ B` with identical `A` and `B` — byte-for-byte identical
everywhere outside the value.  When the entry has no `path` property
(second conjunct), the new property is spliced in right after `name`, but
the whole matching entry object is re-printed by `pp` (its internal
formatting is not preserved, contrary to the claim as stated), while
everything outside the entry object is preserved byte-for-byte. -/
theorem claim_C1 (packageName newPath : String) (pp : ObjLit → String)
    (pre post : List ConfigChunk) (o : ObjLit)
    (hpre : anyChunkMatches packageName pre = false)
    (hpost : anyChunkMatches packageName post = false)
    (hmatch : objMatches packageName o = true) :
    (∀ fs1 pf fs2,
      o.fields = fs1 ++ pf :: fs2 → pf.key = ("path") → hasPathField fs1 = false →
      serializeDoc (pre ++ ConfigChunk.objC o :: post) =
        (serializeDoc pre ++ o.openText ++ serializeFieldList fs1 ++
            pf.pre ++ pf.key ++ pf.sep) ++
          pf.valText ++
          (serializeFieldList fs2 ++ o.closeText ++ serializeDoc post) ∧
      updateConfig packageName newPath pp (pre ++ ConfigChunk.objC o :: post) =
        some ((serializeDoc pre ++ o.openText ++ serializeFieldList fs1 ++
            pf.pre ++ pf.key ++ pf.sep) ++
          quoteSingle newPath ++
          (serializeFieldList fs2 ++ o.closeText ++ serializeDoc post))) ∧
    (hasPathField o.fields = false →
      updateConfig packageName newPath pp (pre ++ ConfigChunk.objC o :: post) =
        some (serializeDoc pre ++
          pp { o with fields :=
            insertPathAfterName packageName (mkPathField newPath) o.fields } ++
          serializeDoc post)) := by
  have hany : anyChunkMatches packageName (pre ++ ConfigChunk.objC o :: post) = true := by
    induction pre with
    | nil => simp [anyChunkMatches, hmatch]
    | cons c cs ih =>
      obtain ⟨hc, hcs⟩ := anyChunkMatches_cons_false packageName c cs hpre
      cases c with
      | text s => exact ih hcs
      | objC o' =>
        have ho' : objMatches packageName o' = false := by
          simp [anyChunkMatches] at hc
          exact hc
        simp [anyChunkMatches, ho', ih hcs]
  have hupd : updateConfig packageName newPath pp (pre ++ ConfigChunk.objC o :: post) =
      some (patchDocText packageName newPath pp (pre ++ ConfigChunk.objC o :: post)) := by
    unfold updateConfig
    rw [if_pos hany]
  have hsplit : patchDocText packageName newPath pp (pre ++ ConfigChunk.objC o :: post) =
      serializeDoc pre ++ patchObj packageName newPath pp o ++ serializeDoc post := by
    rw [patchDocText_append]
    rw [patchDocText_of_no_match packageName newPath pp pre hpre]
    show serializeDoc pre ++
        (patchObj packageName newPath pp o ++ patchDocText packageName newPath pp post) = _
    rw [patchDocText_of_no_match packageName newPath pp post hpost]
    rw [String.append_assoc]
  constructor
  · intro fs1 pf fs2 hfields hkey hfs1
    have hasP : hasPathField o.fields = true := by
      rw [hfields]
      exact hasPathField_append_path fs1 pf fs2 hkey
    constructor
    · rw [serializeDoc_append]
      show serializeDoc pre ++ (serializeObj o ++ serializeDoc post) = _
      unfold serializeObj
      rw [hfields, serializeFieldList_append]
      simp [serializeFieldList, serializeField, String.append_assoc]
    · rw [hupd, hsplit]
      have hobj : patchObj packageName newPath pp o =
          o.openText ++
            serializeFieldList
              (fs1 ++ { pf with valText := quoteSingle newPath, valStr := some newPath } :: fs2) ++
            o.closeText := by
        unfold patchObj
        rw [if_pos hmatch, if_pos hasP]
        show ObjLit.openText _ ++ serializeFieldList (overwritePath newPath o.fields) ++
            ObjLit.closeText _ = _
        rw [hfields, overwritePath_split newPath fs1 pf fs2 hfs1 hkey]
      rw [hobj, serializeFieldList_append]
      simp [serializeFieldList, serializeField, String.append_assoc]
  · intro hnoPath
    rw [hupd, hsplit]
    have hobj : patchObj packageName newPath pp o =
        pp { o with fields :=
          insertPathAfterName packageName (mkPathField newPath) o.fields } := by
      unfold patchObj
      rw [if_pos hmatch, if_neg (by rw [hnoPath]; exact Bool.false_ne_true)]
    rw [hobj]

/-- Document of the C1 counterexample: the repository's own first test input
in `test/config.test.ts` — an entry `\x7b name: 'my-lib' \x7d` without a
`path` property, amid comments and formatting. -/
def c1Doc : List ConfigChunk :=
  [ConfigChunk.text
      ("// Simple config\n      export default \x7b\n        packages: [\n          "),
   ConfigChunk.objC
      ⟨("\x7b"), [⟨(" "), ("name"), (": "), ("'my-lib'"), some ("my-lib")⟩], (" \x7d")⟩,
   ConfigChunk.text ("\n        ]\n      \x7d;")]

/-- Patched output of the C1 counterexample document. -/
def c1Out : String :=
  (updateConfig ("my-lib") ("../../libs/my-lib") (recastPrettyObj ("          "))
    c1Doc).getD ("")

/-- The prefix of the original source up to and including the `name`
property of the matching entry.  Under claim C1 as stated the patched file
would be byte-for-byte identical to the original up to this point, since the
new `path` property is inserted immediately after `name`. -/
def c1ClaimA : String :=
  ("// Simple config\n      export default \x7b\n        packages: [\n          \x7b name: 'my-lib'")

set_option maxRecDepth 4000 in
/-- Counterexample to claim C1 as stated: on the repository's own test input
(an entry without a `path` property), the patched output is the re-printed,
reformatted entry pinned down by the repository's expected test content —
the original text up to the end of the `name` property is *not* a prefix of
the output, so the file is not byte-for-byte identical outside the inserted
`path` property. -/
theorem claim_C1_counterexample :
    c1Out =
      ("// Simple config\n      export default \x7b\n        packages: [\n          \x7b\n            name: 'my-lib',\n            path: '../../libs/my-lib'\n          \x7d\n        ]\n      \x7d;") ∧
    strStartsWith (serializeDoc c1Doc) c1ClaimA = true ∧
    strStartsWith c1Out c1ClaimA = false := by
  refine ⟨by decide, by decide, by decide⟩

/-- Property list and object of the C1 witness: the repository's
scoped-package test — an entry with both `name` and `path` properties. -/
def c1wName : FieldLit := ⟨(" "), ("name"), (": "), ("'@scope/pkg'"), some ("@scope/pkg")⟩

/-- The `path` property of the C1 witness entry. -/
def c1wPath : FieldLit := ⟨(", "), ("path"), (": "), ("'./old/path'"), some ("./old/path")⟩

/-- The entry object of the C1 witness. -/
def c1wObj : ObjLit := ⟨("\x7b"), [c1wName, c1wPath], (" \x7d")⟩

/-- The chunks before the entry object in the C1 witness document. -/
def c1wPre : List ConfigChunk :=
  [ConfigChunk.text
    ("import type \x7b LinkerConfig \x7d from 'pm-link-auto';\n      const config: LinkerConfig = \x7b\n        packages: [\n          ")]

/-- The chunks after the entry object in the C1 witness document. -/
def c1wPost : List ConfigChunk :=
  [ConfigChunk.text ("\n        ]\n      \x7d;\n      export default config;")]

/-- Witness for claim C1 (amended), at the repository's scoped-package test
input: overwriting the existing `path` value splits original and patched
file as `A ++ old ++ B` and `A ++ new ++ B` with the same `A` and `B`. -/
theorem claim_C1_witness :
    serializeDoc (c1wPre ++ ConfigChunk.objC c1wObj :: c1wPost) =
      (serializeDoc c1wPre ++ c1wObj.openText ++ serializeFieldList [c1wName] ++
          c1wPath.pre ++ c1wPath.key ++ c1wPath.sep) ++
        c1wPath.valText ++
        (serializeFieldList [] ++ c1wObj.closeText ++ serializeDoc c1wPost) ∧
    updateConfig ("@scope/pkg") ("../new/location/for/pkg") (recastPrettyObj ("          "))
        (c1wPre ++ ConfigChunk.objC c1wObj :: c1wPost) =
      some ((serializeDoc c1wPre ++ c1wObj.openText ++ serializeFieldList [c1wName] ++
          c1wPath.pre ++ c1wPath.key ++ c1wPath.sep) ++
        quoteSingle ("../new/location/for/pkg") ++
        (serializeFieldList [] ++ c1wObj.closeText ++ serializeDoc c1wPost)) :=
  (claim_C1 ("@scope/pkg") ("../new/location/for/pkg") (recastPrettyObj ("          "))
    c1wPre c1wPost c1wObj rfl rfl rfl).1 [c1wName] c1wPath [] rfl rfl rfl

/-! ### Claim C3 — idempotence of a completed reconciliation -/

theorem validateEntry_eq (env : LinkerEnv) (e : PackageEntry)
    (ve : ValidatedPackageEntry) (h : validateEntry env e = some ve) :
    ve.name = e.name ∧ env.pkgNameAt ve.path = some ve.name := by
  unfold validateEntry at h
  cases hp : e.path with
  | none => simp [hp] at h
  | some p =>
    simp only [hp] at h
    cases hn : env.pkgNameAt (pathResolve env.configDir p) with
    | none => simp [hn] at h
    | some foundName =>
      simp only [hn] at h
      by_cases hcond : foundName ≠ "" ∧ foundName = e.name
      · rw [if_pos hcond] at h
        injection h with h'
        subst h'
        exact ⟨rfl, by rw [hn, hcond.2]⟩
      · rw [if_neg hcond] at h
        cases h

theorem mem_valid_pkgNameAt (env : LinkerEnv) (ps : List PackageEntry) :
    ∀ ve ∈ (partitionEntries env ps).1, env.pkgNameAt ve.path = some ve.name := by
  induction ps with
  | nil => intro ve h; simp [partitionEntries] at h
  | cons e rest ih =>
    intro ve h
    unfold partitionEntries at h
    cases hv : validateEntry env e with
    | some ve' =>
      rw [hv] at h
      have h' : ve ∈ ve' :: (partitionEntries env rest).1 := h
      rcases List.mem_cons.mp h' with h2 | h2
      · subst h2; exact (validateEntry_eq env e ve hv).2
      · exact ih ve h2
    | none =>
      rw [hv] at h
      exact ih ve h

theorem valid_names_sublist (env : LinkerEnv) (ps : List PackageEntry) :
    ((partitionEntries env ps).1.map (·.name)).Sublist (ps.map (·.name)) := by
  induction ps with
  | nil => simp [partitionEntries]
  | cons e rest ih =>
    unfold partitionEntries
    cases hv : validateEntry env e with
    | some ve =>
      show (ve.name :: (partitionEntries env rest).1.map (·.name)).Sublist
        (e.name :: rest.map (·.name))
      rw [(validateEntry_eq env e ve hv).1]
      exact List.Sublist.cons₂ _ ih
    | none =>
      show ((partitionEntries env rest).1.map (·.name)).Sublist
        (e.name :: rest.map (·.name))
      exact List.Sublist.cons _ ih

theorem partitionEntries_length (env : LinkerEnv) (ps : List PackageEntry) :
    (partitionEntries env ps).1.length + (partitionEntries env ps).2.length = ps.length := by
  induction ps with
  | nil => rfl
  | cons e rest ih =>
    unfold partitionEntries
    cases hv : validateEntry env e with
    | some ve =>
      show (partitionEntries env rest).1.length + 1 +
        (partitionEntries env rest).2.length = rest.length + 1
      omega
    | none =>
      show (partitionEntries env rest).1.length +
        ((partitionEntries env rest).2.length + 1) = rest.length + 1
      omega

theorem partitionEntries_update (env : LinkerEnv) (R : List (String × String))
    (ps : List PackageEntry) :
    partitionEntries { env with globalLinks := R } ps = partitionEntries env ps := by
  induction ps with
  | nil => rfl
  | cons e rest ih =>
    unfold partitionEntries
    rw [ih]
    have hv : validateEntry { env with globalLinks := R } e = validateEntry env e := rfl
    rw [hv]

theorem entryEventsAll_append (env : LinkerEnv)
    (l1 l2 : List ValidatedPackageEntry) :
    entryEventsAll env (l1 ++ l2) = entryEventsAll env l1 ++ entryEventsAll env l2 := by
  induction l1 with
  | nil => rfl
  | cons e rest ih => simp [entryEventsAll, ih]

theorem entryEventsAll_nil_of_forall (env : LinkerEnv)
    (es : List ValidatedPackageEntry) (h : ∀ e ∈ es, entryEvents env e = []) :
    entryEventsAll env es = [] := by
  induction es with
  | nil => rfl
  | cons e rest ih =>
    show entryEvents env e ++ entryEventsAll env rest = []
    rw [h e (List.mem_cons_self e rest), ih (fun e' he' => h e' (List.mem_cons_of_mem e he'))]
    rfl

theorem applyLinkEvent_globalLink_of (pkgNameAt : String → Option String)
    (L : List (String × String)) (d nm : String) (h : pkgNameAt d = some nm) :
    applyLinkEvent pkgNameAt L (LinkEvent.globalLink d) = insertUpdate nm d L := by
  show (match pkgNameAt d with
    | some n0 => insertUpdate n0 d L
    | none => L) = insertUpdate nm d L
  rw [h]

theorem applyLinkEvent_globalUnlink (pkgNameAt : String → Option String)
    (L : List (String × String)) (nm : String) :
    applyLinkEvent pkgNameAt L (LinkEvent.globalUnlink nm) = removeKey nm L := rfl

theorem entryEvents_eq_linkFresh (env : LinkerEnv) (e : ValidatedPackageEntry)
    (h : computeAction env.globalLinks env.cwd e = LinkAction.linkFresh) :
    entryEvents env e = [LinkEvent.globalLink e.path] := by
  unfold entryEvents
  rw [h]

theorem entryEvents_eq_alreadyCorrect (env : LinkerEnv) (e : ValidatedPackageEntry)
    (h : computeAction env.globalLinks env.cwd e = LinkAction.alreadyCorrect) :
    entryEvents env e = [] := by
  unfold entryEvents
  rw [h]

theorem entryEvents_eq_conflict_relink (env : LinkerEnv) (e : ValidatedPackageEntry)
    (ex int : String)
    (h : computeAction env.globalLinks env.cwd e = LinkAction.conflict ex int)
    (hr : env.shouldRelink e.name = true) :
    entryEvents env e = [LinkEvent.globalUnlink e.name, LinkEvent.globalLink e.path] := by
  unfold entryEvents
  rw [h]
  show (if env.shouldRelink e.name then
      [LinkEvent.globalUnlink e.name, LinkEvent.globalLink e.path]
    else []) = _
  rw [if_pos hr]

theorem entryEvents_eq_conflict_skip (env : LinkerEnv) (e : ValidatedPackageEntry)
    (ex int : String)
    (h : computeAction env.globalLinks env.cwd e = LinkAction.conflict ex int)
    (hr : env.shouldRelink e.name = false) :
    entryEvents env e = [] := by
  unfold entryEvents
  rw [h]
  show (if env.shouldRelink e.name then
      [LinkEvent.globalUnlink e.name, LinkEvent.globalLink e.path]
    else []) = _
  rw [if_neg (by rw [hr]; exact Bool.false_ne_true)]

theorem computeAction_alreadyCorrect_inv (L : List (String × String)) (cwd : String)
    (e : ValidatedPackageEntry) (h : computeAction L cwd e = LinkAction.alreadyCorrect) :
    ∃ ex, lookupStr L e.name = some ex ∧
      pathResolve cwd ex = pathResolve cwd e.path := by
  unfold computeAction at h
  cases hl : lookupStr L e.name with
  | none => rw [hl] at h; simp at h
  | some ex =>
    rw [hl] at h
    by_cases hres : pathResolve cwd ex = pathResolve cwd e.path
    · exact ⟨ex, rfl, hres⟩
    · simp [hres] at h

theorem lookup_foldl_entryEvents_ne (env : LinkerEnv) (e' : ValidatedPackageEntry)
    (L : List (String × String)) (n : String)
    (hp : env.pkgNameAt e'.path = some e'.name) (hne : e'.name ≠ n) :
    lookupStr ((entryEvents env e').foldl (applyLinkEvent env.pkgNameAt) L) n =
      lookupStr L n := by
  cases hca : computeAction env.globalLinks env.cwd e' with
  | linkFresh =>
    rw [entryEvents_eq_linkFresh env e' hca]
    simp only [List.foldl_cons, List.foldl_nil]
    rw [applyLinkEvent_globalLink_of env.pkgNameAt L e'.path e'.name hp]
    exact lookupStr_insertUpdate_ne e'.name e'.path n L hne
  | alreadyCorrect =>
    rw [entryEvents_eq_alreadyCorrect env e' hca]
    rfl
  | conflict ex int =>
    by_cases hr : env.shouldRelink e'.name = true
    · rw [entryEvents_eq_conflict_relink env e' ex int hca hr]
      simp only [List.foldl_cons, List.foldl_nil]
      rw [applyLinkEvent_globalUnlink,
        applyLinkEvent_globalLink_of env.pkgNameAt _ e'.path e'.name hp]
      rw [lookupStr_insertUpdate_ne e'.name e'.path n _ hne]
      exact lookupStr_removeKey_ne e'.name n L hne
    · rw [entryEvents_eq_conflict_skip env e' ex int hca (Bool.not_eq_true _ ▸ hr)]
      rfl

theorem lookup_foldl_entryEventsAll_ne (env : LinkerEnv)
    (es : List ValidatedPackageEntry) (n : String)
    (hp : ∀ e ∈ es, env.pkgNameAt e.path = some e.name)
    (hn : ∀ e ∈ es, e.name ≠ n) :
    ∀ L, lookupStr ((entryEventsAll env es).foldl (applyLinkEvent env.pkgNameAt) L) n =
      lookupStr L n := by
  induction es with
  | nil => intro L; rfl
  | cons e rest ih =>
    intro L
    show lookupStr
        ((entryEvents env e ++ entryEventsAll env rest).foldl
          (applyLinkEvent env.pkgNameAt) L) n = _
    rw [List.foldl_append]
    rw [ih (fun e' he' => hp e' (List.mem_cons_of_mem e he'))
      (fun e' he' => hn e' (List.mem_cons_of_mem e he'))]
    exact lookup_foldl_entryEvents_ne env e L n
      (hp e (List.mem_cons_self e rest)) (hn e (List.mem_cons_self e rest))

theorem lookup_foldl_entryEvents_self (env : LinkerEnv) (e : ValidatedPackageEntry)
    (L : List (String × String))
    (hp : env.pkgNameAt e.path = some e.name)
    (hL : lookupStr L e.name = lookupStr env.globalLinks e.name)
    (happ : env.shouldRelink e.name = true) :
    ∃ q, lookupStr ((entryEvents env e).foldl (applyLinkEvent env.pkgNameAt) L) e.name =
        some q ∧
      pathResolve env.cwd q = pathResolve env.cwd e.path := by
  cases hca : computeAction env.globalLinks env.cwd e with
  | linkFresh =>
    refine ⟨e.path, ?_, rfl⟩
    rw [entryEvents_eq_linkFresh env e hca]
    simp only [List.foldl_cons, List.foldl_nil]
    rw [applyLinkEvent_globalLink_of env.pkgNameAt L e.path e.name hp]
    exact lookupStr_insertUpdate_self e.name e.path L
  | alreadyCorrect =>
    obtain ⟨ex, hex, hres⟩ := computeAction_alreadyCorrect_inv env.globalLinks env.cwd e hca
    refine ⟨ex, ?_, hres⟩
    rw [entryEvents_eq_alreadyCorrect env e hca]
    show lookupStr L e.name = some ex
    rw [hL, hex]
  | conflict ex int =>
    refine ⟨e.path, ?_, rfl⟩
    rw [entryEvents_eq_conflict_relink env e ex int hca happ]
    simp only [List.foldl_cons, List.foldl_nil]
    rw [applyLinkEvent_globalUnlink,
      applyLinkEvent_globalLink_of env.pkgNameAt _ e.path e.name hp]
    exact lookupStr_insertUpdate_self e.name e.path _

/-- Claim C3 (amended): when every declared entry validates (so no discovery
runs), entry names are pairwise distinct, and the user approves every relink
prompt of the first run, then running reconciliation again right after —
with the registry in the state the first run's commands left it, and no
other external change — produces the `AlreadyCorrect` decision for every
resolved entry, and the second run's trace contains zero global link and
zero global unlink commands.  (The claim as stated, without the approval
hypothesis, is refuted by `claim_C3_counterexample`: a conflict declined in
the first run is a conflict again in the second.) -/
theorem claim_C3 (env : LinkerEnv) (packages : List PackageEntry)
    (hval : (partitionEntries env packages).2 = [])
    (hnodup : (packages.map (·.name)).Nodup)
    (hrelink : ∀ e ∈ resolvedEntries env packages, env.shouldRelink e.name = true) :
    (∀ e ∈ resolvedEntries (secondRunEnv env packages) packages,
      computeAction (secondRunEnv env packages).globalLinks
        (secondRunEnv env packages).cwd e = LinkAction.alreadyCorrect) ∧
    (∀ ev ∈ (runLinker (secondRunEnv env packages) packages).1,
      isGlobalLinkOrUnlink ev = false) := by
  have hpart2 : partitionEntries (secondRunEnv env packages) packages =
      partitionEntries env packages :=
    partitionEntries_update env (registryAfter env (runLinker env packages).1) packages
  by_cases hpe : packages.isEmpty = true
  · have hpnil : packages = [] := by
      cases packages with
      | nil => rfl
      | cons a l => cases hpe
    subst hpnil
    constructor
    · intro e he
      exact absurd he (List.not_mem_nil e)
    · intro ev hev
      exact absurd hev (List.not_mem_nil ev)
  · have hempty : packages.isEmpty = false := by
      cases h : packages.isEmpty with
      | true => exact absurd h hpe
      | false => rfl
    have hvmap := mem_valid_pkgNameAt env packages
    have hnodupValid : ((partitionEntries env packages).1.map (·.name)).Nodup :=
      List.Nodup.sublist (valid_names_sublist env packages) hnodup
    have hvne : (partitionEntries env packages).1 ≠ [] := by
      intro hnil
      have hlen := partitionEntries_length env packages
      rw [hnil, hval] at hlen
      have hplen : packages.length = 0 := by simpa using hlen.symm
      have : packages = [] := List.length_eq_zero.mp hplen
      rw [this] at hempty
      cases hempty
    have hvalidEmpty : (partitionEntries env packages).1.isEmpty = false := by
      cases hc : (partitionEntries env packages).1 with
      | nil => exact absurd hc hvne
      | cons a l => rfl
    have hinvEmpty : (partitionEntries env packages).2.isEmpty = true := by
      rw [hval]; rfl
    have hcond : ¬(¬(partitionEntries env packages).2.isEmpty = true ∧
        env.shouldDiscover = true) := fun hc => hc.1 hinvEmpty
    have hrun1 : runLinker env packages =
        (LinkEvent.globalList ::
          (entryEventsAll env (partitionEntries env packages).1 ++
            [LinkEvent.localLink ((partitionEntries env packages).1.map (·.name))]),
          RunOutcome.completed) := by
      unfold runLinker
      rw [if_neg (by simp [hempty]), if_neg hcond, if_neg (by simp [hvalidEmpty])]
    have hreg : (secondRunEnv env packages).globalLinks =
        (entryEventsAll env (partitionEntries env packages).1).foldl
          (applyLinkEvent env.pkgNameAt) env.globalLinks := by
      show registryAfter env (runLinker env packages).1 = _
      rw [hrun1]
      show ((entryEventsAll env (partitionEntries env packages).1 ++
          [LinkEvent.localLink ((partitionEntries env packages).1.map (·.name))]).foldl
            (applyLinkEvent env.pkgNameAt) env.globalLinks) = _
      rw [List.foldl_append]
      rfl
    have hkey : ∀ e ∈ (partitionEntries env packages).1,
        ∃ q, lookupStr
            ((entryEventsAll env (partitionEntries env packages).1).foldl
              (applyLinkEvent env.pkgNameAt) env.globalLinks) e.name = some q ∧
          pathResolve env.cwd q = pathResolve env.cwd e.path := by
      intro e he
      obtain ⟨s, t, hst⟩ := List.append_of_mem he
      have hmap2 : (s.map (·.name) ++ e.name :: t.map (·.name)).Nodup := by
        have h0 := hnodupValid
        rw [hst] at h0
        simpa using h0
      have hcons := List.nodup_middle.mp hmap2
      have hnotmem : e.name ∉ (s.map (·.name) ++ t.map (·.name)) :=
        (List.nodup_cons.mp hcons).1
      have hsne : ∀ e' ∈ s, e'.name ≠ e.name := by
        intro e' he' hcontra
        exact hnotmem
          (List.mem_append.mpr (Or.inl (hcontra ▸ List.mem_map_of_mem (·.name) he')))
      have htne : ∀ e' ∈ t, e'.name ≠ e.name := by
        intro e' he' hcontra
        exact hnotmem
          (List.mem_append.mpr (Or.inr (hcontra ▸ List.mem_map_of_mem (·.name) he')))
      have hps : ∀ e' ∈ s, env.pkgNameAt e'.path = some e'.name := by
        intro e' he'
        exact hvmap e' (hst ▸ List.mem_append.mpr (Or.inl he'))
      have hpt : ∀ e' ∈ t, env.pkgNameAt e'.path = some e'.name := by
        intro e' he'
        exact hvmap e' (hst ▸ List.mem_append.mpr (Or.inr (List.mem_cons_of_mem e he')))
      rw [hst, entryEventsAll_append]
      rw [show entryEventsAll env (e :: t) = entryEvents env e ++ entryEventsAll env t
        from rfl]
      rw [List.foldl_append, List.foldl_append]
      rw [lookup_foldl_entryEventsAll_ne env t e.name hpt htne]
      exact lookup_foldl_entryEvents_self env e _ (hvmap e he)
        (lookup_foldl_entryEventsAll_ne env s e.name hps hsne env.globalLinks)
        (hrelink e he)
    have hfirst : ∀ e ∈ (partitionEntries env packages).1,
        computeAction (secondRunEnv env packages).globalLinks env.cwd e =
          LinkAction.alreadyCorrect := by
      intro e he
      obtain ⟨q, hq, hres⟩ := hkey e he
      unfold computeAction
      rw [hreg, hq]
      show (if pathResolve env.cwd q = pathResolve env.cwd e.path then
          LinkAction.alreadyCorrect
        else LinkAction.conflict q e.path) = LinkAction.alreadyCorrect
      rw [if_pos hres]
    constructor
    · intro e he
      have he' : e ∈ (partitionEntries env packages).1 := by
        have hres2 : resolvedEntries (secondRunEnv env packages) packages =
            (partitionEntries env packages).1 := by
          show (partitionEntries (secondRunEnv env packages) packages).1 = _
          rw [hpart2]
        rw [hres2] at he
        exact he
      exact hfirst e he'
    · have hev2 : ∀ e ∈ (partitionEntries env packages).1,
          entryEvents (secondRunEnv env packages) e = [] := by
        intro e he
        exact entryEvents_eq_alreadyCorrect (secondRunEnv env packages) e (hfirst e he)
      have hall2 : entryEventsAll (secondRunEnv env packages)
          (partitionEntries env packages).1 = [] :=
        entryEventsAll_nil_of_forall (secondRunEnv env packages) _ hev2
      have hcond2 : ¬(¬(partitionEntries env packages).2.isEmpty = true ∧
          (secondRunEnv env packages).shouldDiscover = true) := hcond
      have hrun2 : runLinker (secondRunEnv env packages) packages =
          (LinkEvent.globalList ::
            (entryEventsAll (secondRunEnv env packages) (partitionEntries env packages).1 ++
              [LinkEvent.localLink ((partitionEntries env packages).1.map (·.name))]),
            RunOutcome.completed) := by
        unfold runLinker
        rw [if_neg (by simp [hempty])]
        rw [hpart2]
        rw [if_neg hcond2, if_neg (by simp [hvalidEmpty])]
      intro ev hev
      rw [hrun2, hall2] at hev
      have hev' : ev ∈ [LinkEvent.globalList,
          LinkEvent.localLink ((partitionEntries env packages).1.map (·.name))] := hev
      rcases List.mem_cons.mp hev' with h1 | h1
      · subst h1; rfl
      · rcases List.mem_cons.mp h1 with h2 | h2
        · subst h2; rfl
        · exact absurd h2 (List.not_mem_nil ev)

/-- Environment of the C3 counterexample: the valid entry `pkg-b` is linked
from the wrong path in the registry and the user declines every relink. -/
def envC3 : LinkerEnv :=
  ⟨("/"), ("/proj"),
   (fun p => if p = ("/correct/pkg-b") then some ("pkg-b") else none),
   [], false, (fun _ => false), [(("pkg-b"), ("/wrong/pkg-b"))]⟩

/-- Declared entries of the C3 counterexample. -/
def packagesC3 : List PackageEntry := [⟨("pkg-b"), some ("/correct/pkg-b")⟩]

/-- Counterexample to claim C3 as stated: with the conflict for `pkg-b`
declined, the first run issues no link or unlink command, so the registry is
unchanged between the runs (first conjunct) — the claim's hypothesis holds —
yet the second run's decision for the sole resolved entry is `Conflict`, not
`AlreadyCorrect`. -/
theorem claim_C3_counterexample :
    (secondRunEnv envC3 packagesC3).globalLinks = envC3.globalLinks ∧
    resolvedEntries (secondRunEnv envC3 packagesC3) packagesC3 =
      [⟨("pkg-b"), ("/correct/pkg-b")⟩] ∧
    computeAction (secondRunEnv envC3 packagesC3).globalLinks
        (secondRunEnv envC3 packagesC3).cwd ⟨("pkg-b"), ("/correct/pkg-b")⟩ =
      LinkAction.conflict ("/wrong/pkg-b") ("/correct/pkg-b") := by
  refine ⟨by decide, by decide, by decide⟩

/-- Environment of the C3 witness: one valid entry, an empty registry, every
relink prompt approved. -/
def envW3 : LinkerEnv :=
  ⟨("/"), ("/proj"),
   (fun p => if p = ("/x/pkg-a") then some ("pkg-a") else none),
   [], false, (fun _ => true), []⟩

/-- Declared entries of the C3 witness. -/
def packagesW3 : List PackageEntry := [⟨("pkg-a"), some ("/x/pkg-a")⟩]

/-- Witness for claim C3 (amended): after a first run that freshly links
`pkg-a`, the second run decides `AlreadyCorrect` for it and issues no global
link or unlink command. -/
theorem claim_C3_witness :
    computeAction (secondRunEnv envW3 packagesW3).globalLinks
      (secondRunEnv envW3 packagesW3).cwd ⟨("pkg-a"), ("/x/pkg-a")⟩ =
        LinkAction.alreadyCorrect ∧
    (∀ ev ∈ (runLinker (secondRunEnv envW3 packagesW3) packagesW3).1,
      isGlobalLinkOrUnlink ev = false) := by
  have h := claim_C3 envW3 packagesW3 (by decide) (by decide) (fun e he => rfl)
  exact ⟨h.1 ⟨("pkg-a"), ("/x/pkg-a")⟩ (by decide), h.2⟩

/-- Witness for claim C10: a failed parse and a parsed document without the
requested entry both leave the original content in place. -/
theorem claim_C10_witness :
    fileAfter ("export default \x7b packages: [] \x7d;")
        (updateConfigFile ("missing-pkg") ("/new/path") (recastPrettyObj (""))
          (some [ConfigChunk.text ("export default \x7b packages: [] \x7d;")])) =
      ("export default \x7b packages: [] \x7d;") ∧
    updateConfigFile ("missing-pkg") ("/new/path") (recastPrettyObj ("")) none =
      UpdateResult.caughtError := by
  constructor
  · exact (claim_C10 ("missing-pkg") ("/new/path")
      ("export default \x7b packages: [] \x7d;") (recastPrettyObj (""))
      (some [ConfigChunk.text ("export default \x7b packages: [] \x7d;")])
      (Or.inr ⟨[ConfigChunk.text ("export default \x7b packages: [] \x7d;")], rfl, rfl⟩)).1
  · exact ((claim_C10 ("missing-pkg") ("/new/path")
      ("export default \x7b packages: [] \x7d;") (recastPrettyObj ("")) none
      (Or.inl rfl)).2.1 rfl)
